import Mathlib

/-!
Verification of the game-state and move-generation engine of the
`Evo_Chess` repository (`chess_game_Agent.py`) against its natural-language
specification.  The Python classes `Piece`, `Pawn` .. `King` and
`ChessBoard`, the notation helpers, and the persistence codec
(`game_to_dict` / `dict_to_game` / `save_game` / `load_game`) are embedded
as executable Lean definitions below; colors and piece kinds are the
Python string constants and are deliberately left as unconstrained
strings, exactly as in the source (the code never validates them).
-/

namespace EvoChess

/-- Game modes (the `GameMode` enum of the source: `SINGLE_PLAYER = 0`,
`MULTIPLAYER = 1`). -/
inductive GameMode
  | single_player
  | multiplayer
deriving DecidableEq

/-- Numeric `.value` of a `GameMode` member. -/
def GameMode.value : GameMode → Int
  | .single_player => 0
  | .multiplayer => 1

/-- The string constant `WHITE_PIECE` of the source. -/
def WHITE_PIECE : String := "white"

/-- The string constant `BLACK_PIECE` of the source. -/
def BLACK_PIECE : String := "black"

/-- The string constant `PAWN` of the source. -/
def PAWN : String := "pawn"

/-- The string constant `ROOK` of the source. -/
def ROOK : String := "rook"

/-- The string constant `KNIGHT` of the source. -/
def KNIGHT : String := "knight"

/-- The string constant `BISHOP` of the source. -/
def BISHOP : String := "bishop"

/-- The string constant `QUEEN` of the source. -/
def QUEEN : String := "queen"

/-- The string constant `KING` of the source. -/
def KING : String := "king"

/-- A chess piece: the data fields of the Python `Piece` class.  The six
subclasses `Pawn` .. `King` differ only in the `piece_type` they store and
in which move generator applies (see `get_legal_moves`). -/
structure Piece where
  color : String
  piece_type : String
  row : Int
  col : Int
  has_moved : Bool
deriving DecidableEq

/-- Constructor shared by the six piece subclasses: each `__init__` stores
color, its fixed kind string, the coordinates, and `has_moved = False`. -/
def mkPiece (color piece_type : String) (row col : Int) : Piece :=
  { color := color, piece_type := piece_type, row := row, col := col,
    has_moved := false }

/-- The method `Piece.move_to`: update the position and set `has_moved`
irreversibly true. -/
def Piece.move_to (piece : Piece) (row col : Int) : Piece :=
  { piece with row := row, col := col, has_moved := true }

/-- The 8x8 grid `ChessBoard.board`: each cell holds at most one piece. -/
abbrev Board := Fin 8 → Fin 8 → Option Piece

/-- Reading `board[r][c]` at a move-generator call site.  Every such read
in the source is guarded by `is_valid_position`, so the out-of-range
branch (returning `none`) is dead code at every call site. -/
def cellAt (b : Board) (r c : Int) : Option Piece :=
  if h : 0 ≤ r ∧ r < 8 ∧ 0 ≤ c ∧ c < 8 then
    b ⟨r.toNat, by omega⟩ ⟨c.toNat, by omega⟩
  else none

/-- Writing `board[r][c] = v`.  Every such write in the source happens at
in-range coordinates; an out-of-range write would be a no-op here. -/
def setCell (b : Board) (r c : Int) (v : Option Piece) : Board :=
  fun i j => if (i : Int) = r ∧ (j : Int) = c then v else b i j

/-- The method `Piece.is_valid_position`: both coordinates in `[0, 8)`. -/
def is_valid_position (r c : Int) : Prop :=
  0 ≤ r ∧ r < 8 ∧ 0 ≤ c ∧ c < 8

instance (r c : Int) : Decidable (is_valid_position r c) :=
  inferInstanceAs (Decidable (0 ≤ r ∧ r < 8 ∧ 0 ≤ c ∧ c < 8))

/-- The diagonal-capture block of `Pawn.get_legal_moves` (the source's
`for col_offset in [-1, 1]` loop), extracted as a helper. -/
def pawn_captures (b : Board) (p : Piece) (direction : Int) : List (Int × Int) :=
  ([-1, 1] : List Int).filterMap (fun col_offset =>
    let new_row := p.row + direction
    let new_col := p.col + col_offset
    if is_valid_position new_row new_col then
      match cellAt b new_row new_col with
      | some target => if target.color ≠ p.color then some (new_row, new_col) else none
      | none => none
    else none)

/-- The method `Pawn.get_legal_moves`: one square forward if empty; nested
inside that, the initial two-square advance if the pawn has not moved and
the second square is also empty; then the two diagonal captures. -/
def pawn_moves (b : Board) (p : Piece) : List (Int × Int) :=
  let direction : Int := if p.color = WHITE_PIECE then -1 else 1
  let forward :=
    if is_valid_position (p.row + direction) p.col ∧
        cellAt b (p.row + direction) p.col = none then
      (p.row + direction, p.col) ::
        (if ¬ p.has_moved ∧ is_valid_position (p.row + 2 * direction) p.col ∧
            cellAt b (p.row + 2 * direction) p.col = none then
          [(p.row + 2 * direction, p.col)]
        else [])
    else []
  forward ++ pawn_captures b p direction

/-- One direction of a ray-casting piece: the inner `for i in range(1, 8)`
loop of `Rook`/`Bishop`/`Queen.get_legal_moves`, with the loop's remaining
iteration count as explicit fuel (`fuel = 7`, `i = 1` at the call sites).
The ray stops at the board edge, extends through empty squares, and stops
at the first occupied square, including it iff its color differs. -/
def ray_moves (b : Board) (color : String) (row col dr dc : Int) :
    Nat → Int → List (Int × Int)
  | 0, _ => []
  | fuel + 1, i =>
    let new_row := row + i * dr
    let new_col := col + i * dc
    if is_valid_position new_row new_col then
      match cellAt b new_row new_col with
      | none => (new_row, new_col) :: ray_moves b color row col dr dc fuel (i + 1)
      | some target => if target.color ≠ color then [(new_row, new_col)] else []
    else []

/-- The direction list of `Rook.get_legal_moves`. -/
def rook_directions : List (Int × Int) := [(0, 1), (1, 0), (0, -1), (-1, 0)]

/-- The direction list of `Bishop.get_legal_moves`. -/
def bishop_directions : List (Int × Int) := [(1, 1), (1, -1), (-1, 1), (-1, -1)]

/-- The direction list of `Queen.get_legal_moves` (rook-like then
bishop-like, in source order). -/
def queen_directions : List (Int × Int) := rook_directions ++ bishop_directions

/-- The method `Rook.get_legal_moves`. -/
def rook_moves (b : Board) (p : Piece) : List (Int × Int) :=
  rook_directions.flatMap (fun d => ray_moves b p.color p.row p.col d.1 d.2 7 1)

/-- The method `Bishop.get_legal_moves`. -/
def bishop_moves (b : Board) (p : Piece) : List (Int × Int) :=
  bishop_directions.flatMap (fun d => ray_moves b p.color p.row p.col d.1 d.2 7 1)

/-- The method `Queen.get_legal_moves`. -/
def queen_moves (b : Board) (p : Piece) : List (Int × Int) :=
  queen_directions.flatMap (fun d => ray_moves b p.color p.row p.col d.1 d.2 7 1)

/-- The offset list of `Knight.get_legal_moves`. -/
def knight_offsets : List (Int × Int) :=
  [(-2, -1), (-2, 1), (-1, -2), (-1, 2), (1, -2), (1, 2), (2, -1), (2, 1)]

/-- The direction list of `King.get_legal_moves`. -/
def king_directions : List (Int × Int) :=
  [(0, 1), (1, 0), (0, -1), (-1, 0), (1, 1), (1, -1), (-1, 1), (-1, -1)]

/-- Shared body of `Knight.get_legal_moves` and `King.get_legal_moves`:
each offset destination is included iff it is on the board and not
occupied by a piece of the moving color. -/
def offset_moves (b : Board) (p : Piece) (offsets : List (Int × Int)) :
    List (Int × Int) :=
  offsets.filterMap (fun d =>
    let new_row := p.row + d.1
    let new_col := p.col + d.2
    if is_valid_position new_row new_col then
      match cellAt b new_row new_col with
      | none => some (new_row, new_col)
      | some target => if target.color ≠ p.color then some (new_row, new_col) else none
    else none)

/-- The method `Knight.get_legal_moves`. -/
def knight_moves (b : Board) (p : Piece) : List (Int × Int) :=
  offset_moves b p knight_offsets

/-- The method `King.get_legal_moves`. -/
def king_moves (b : Board) (p : Piece) : List (Int × Int) :=
  offset_moves b p king_directions

/-- Dynamic dispatch of `get_legal_moves` over the six piece subclasses.
A `piece_type` outside the six kind strings corresponds to the base
`Piece.get_legal_moves`, which returns `[]`. -/
def get_legal_moves (b : Board) (p : Piece) : List (Int × Int) :=
  if p.piece_type = PAWN then pawn_moves b p
  else if p.piece_type = ROOK then rook_moves b p
  else if p.piece_type = KNIGHT then knight_moves b p
  else if p.piece_type = BISHOP then bishop_moves b p
  else if p.piece_type = QUEEN then queen_moves b p
  else if p.piece_type = KING then king_moves b p
  else []

/-- The method `ChessBoard.setup_pieces`: the standard starting layout.
Rows 1 and 6 hold the black and white pawns; rows 0 and 7 hold the black
and white back ranks (rook, knight, bishop, queen, king, bishop, knight,
rook); all other cells are empty.  This function form is cell-by-cell
equal to the source's 24 assignment statements. -/
def setup_pieces : Board := fun i j =>
  let r : Int := (i : Int)
  let c : Int := (j : Int)
  if r = 1 then some (mkPiece BLACK_PIECE PAWN r c)
  else if r = 6 then some (mkPiece WHITE_PIECE PAWN r c)
  else if r = 0 ∨ r = 7 then
    let color := if r = 0 then BLACK_PIECE else WHITE_PIECE
    if c = 0 ∨ c = 7 then some (mkPiece color ROOK r c)
    else if c = 1 ∨ c = 6 then some (mkPiece color KNIGHT r c)
    else if c = 2 ∨ c = 5 then some (mkPiece color BISHOP r c)
    else if c = 3 then some (mkPiece color QUEEN r c)
    else some (mkPiece color KING r c)
  else none

/-- The mutable state of the Python `ChessBoard` object. -/
structure ChessBoard where
  board : Board
  selected_piece : Option Piece
  current_player : String
  legal_moves : List (Int × Int)
  move_history : List String
  game_mode : Option GameMode
deriving DecidableEq

/-- The constructor `ChessBoard.__init__`: standard setup, no selection,
White to move, empty caches and history, mode unset (`None`). -/
def ChessBoard.init : ChessBoard :=
  { board := setup_pieces, selected_piece := none,
    current_player := WHITE_PIECE, legal_moves := [], move_history := [],
    game_mode := none }

/-- Python list indexing into an 8-element list: indices in `[0, 8)` are
direct, indices in `[-8, 0)` wrap around once, anything else raises
`IndexError` (modelled by `none`). -/
def index8 (i : Int) : Option (Fin 8) :=
  if h : 0 ≤ i ∧ i < 8 then some ⟨i.toNat, by omega⟩
  else if h2 : -8 ≤ i ∧ i < 0 then some ⟨(i + 8).toNat, by omega⟩
  else none

/-- Raw Python evaluation of `self.board[row][col]` with full Python list
semantics (negative indices wrap); `Except.error ()` models the
`IndexError` raised when an index is outside `[-8, 8)`. -/
def board_index (b : Board) (r c : Int) : Except Unit (Option Piece) :=
  match index8 r, index8 c with
  | some i, some j => .ok (b i j)
  | _, _ => .error ()

/-- The method `ChessBoard.get_piece_at`: the raw board access is guarded
by an explicit range check; out-of-range queries return `None` without
touching the list. -/
def get_piece_at (b : Board) (row col : Int) : Except Unit (Option Piece) :=
  if 0 ≤ row ∧ row < 8 ∧ 0 ≤ col ∧ col < 8 then board_index b row col
  else .ok none

/-- Convert board coordinates to an algebraic square, the source's
`get_algebraic_notation` helper: file `chr(ord('a') + col)`, rank
`str(8 - row)`. -/
def get_algebraic (row col : Int) : String :=
  String.singleton (Char.ofNat (('a'.toNat : Int) + col).toNat) ++ toString (8 - row)

/-- Convert an algebraic square back to board coordinates, the source's
`get_board_coordinates`: reads characters `[0]` and `[1]` (`IndexError`,
modelled by `Except.error`, if the string is shorter) and parses the rank
with `int(...)` (`ValueError` if the character is not a digit). -/
def get_board_coordinates (algebraic : String) : Except Unit (Int × Int) :=
  match algebraic.toList with
  | file :: rank :: _ =>
    if rank.isDigit then
      let col : Int := (file.toNat : Int) - ('a'.toNat : Int)
      let row : Int := 8 - ((rank.toNat : Int) - ('0'.toNat : Int))
      .ok (row, col)
    else .error ()
  | _ => .error ()

/-- The notation letter of a piece, the source's `get_piece_notation`:
empty for pawns, `N`/`B`/`R`/`Q`/`K` otherwise. -/
def get_piece_letter (piece : Piece) : String :=
  if piece.piece_type = PAWN then ""
  else if piece.piece_type = KNIGHT then "N"
  else if piece.piece_type = BISHOP then "B"
  else if piece.piece_type = ROOK then "R"
  else if piece.piece_type = QUEEN then "Q"
  else if piece.piece_type = KING then "K"
  else ""

/-- Algebraic text of a move, the source's `get_move_notation`.  The
pawn-capture case reads `start_square[0]`; `get_algebraic` never returns
an empty string, so the `headD` default is dead. -/
def get_move_str (start_row start_col end_row end_col : Int) (piece : Piece)
    (is_capture : Bool) : String :=
  let piece_letter := get_piece_letter piece
  let start_square := get_algebraic start_row start_col
  let end_square := get_algebraic end_row end_col
  if piece.piece_type = PAWN then
    if is_capture then String.singleton (start_square.toList.headD ' ') ++ "x" ++ end_square
    else end_square
  else
    if is_capture then piece_letter ++ "x" ++ end_square
    else piece_letter ++ end_square

/-- The method `ChessBoard.select_piece`: succeeds iff the square holds a
piece of the current player; on success stores the piece and caches its
legal moves.  `get_piece_at` never raises (`get_piece_at_ok` below), so
collapsing its error branch into the failure result is dead code. -/
def select_piece (g : ChessBoard) (row col : Int) : ChessBoard × Bool :=
  match get_piece_at g.board row col with
  | .ok (some piece) =>
    if piece.color = g.current_player then
      ({ g with selected_piece := some piece,
                legal_moves := get_legal_moves g.board piece }, true)
    else (g, false)
  | _ => (g, false)

/-- The method `ChessBoard.move_selected_piece`: rejects (returning the
state unchanged) unless a piece is selected and the destination is in the
cached legal moves; otherwise clears the source cell, places the moved
piece (its `move_to` sets position and `has_moved`), appends the move's
algebraic text to the history, flips the player, and clears the
selection and the cache. -/
def move_selected_piece (g : ChessBoard) (row col : Int) : ChessBoard × Bool :=
  match g.selected_piece with
  | none => (g, false)
  | some piece =>
    if (row, col) ∉ g.legal_moves then (g, false)
    else
      let old_row := piece.row
      let old_col := piece.col
      let is_capture := (cellAt g.board row col).isSome
      let moved := piece.move_to row col
      let board2 := setCell (setCell g.board old_row old_col none) row col (some moved)
      let move_text := get_move_str old_row old_col row col piece is_capture
      ({ board := board2,
         selected_piece := none,
         current_player := if g.current_player = WHITE_PIECE then BLACK_PIECE else WHITE_PIECE,
         legal_moves := [],
         move_history := g.move_history ++ [move_text],
         game_mode := g.game_mode }, true)

/-- The method `ChessBoard.get_all_valid_moves`: row-major scan of the
grid, collecting `(piece, destination)` for every legal destination of
every piece of the given color. -/
def get_all_valid_moves (g : ChessBoard) (color : String) :
    List (Piece × (Int × Int)) :=
  (List.finRange 8).flatMap (fun row =>
    (List.finRange 8).flatMap (fun col =>
      match g.board row col with
      | some piece =>
        if piece.color = color then
          (get_legal_moves g.board piece).map (fun move => (piece, move))
        else []
      | none => []))

/-- The method `ChessBoard.make_ai_move`.  The argument `choice` models
the value returned by `random.choice(all_moves)`; theorems about this
operation assume `choice ∈ get_all_valid_moves g BLACK_PIECE`, which is
everything `random.choice` guarantees.  The body repeats the successful
branch of `move_selected_piece` except that the selection and the cached
legal moves are left untouched and the player is set to White directly. -/
def make_ai_move (g : ChessBoard) (choice : Piece × (Int × Int)) :
    ChessBoard × Bool :=
  if g.current_player ≠ BLACK_PIECE then (g, false)
  else
    let all_moves := get_all_valid_moves g BLACK_PIECE
    if all_moves = [] then (g, false)
    else
      let piece := choice.1
      let row := choice.2.1
      let col := choice.2.2
      let old_row := piece.row
      let old_col := piece.col
      let is_capture := (cellAt g.board row col).isSome
      let moved := piece.move_to row col
      let board2 := setCell (setCell g.board old_row old_col none) row col (some moved)
      let move_text := get_move_str old_row old_col row col piece is_capture
      ({ board := board2,
         selected_piece := g.selected_piece,
         current_player := WHITE_PIECE,
         legal_moves := g.legal_moves,
         move_history := g.move_history ++ [move_text],
         game_mode := g.game_mode }, true)

/-- JSON-like values, the documents handled by `json.dump`/`json.load`
(numbers restricted to integers, which covers every document this program
writes). -/
inductive JVal
  | jnull
  | jbool (b : Bool)
  | jnum (n : Int)
  | jstr (s : String)
  | jarr (items : List JVal)
  | jobj (fields : List (String × JVal))

/-- Python `data[key]` on a JSON value: `KeyError` if the key is absent,
`TypeError` if the value is not a dict; both raise, modelled by
`Except.error ()`. -/
def JVal.getKey : JVal → String → Except Unit JVal
  | .jobj fields, key =>
    match fields.lookup key with
    | some v => .ok v
    | none => .error ()
  | _, _ => .error ()

/-- Python `data[i]` for a non-negative index on a JSON value: raises
unless the value is a list of length greater than `i` (negative indices
never occur at the modelled call sites, whose indices are `range(8)`
loop variables). -/
def JVal.getIdx : JVal → Nat → Except Unit JVal
  | .jarr items, i =>
    match items.get? i with
    | some v => .ok v
    | none => .error ()
  | _, _ => .error ()

/-- Python `data.get(key, default)`; the modelled call site reaches this
only after `data[...]` lookups have succeeded, so `data` is a dict
there and the non-dict branch is dead. -/
def JVal.getD (v : JVal) (key : String) (default : JVal) : JVal :=
  match v with
  | .jobj fields => (fields.lookup key).getD default
  | _ => default

/-- The per-cell encoding used by `game_to_dict`: the dict literal
`{"color": ..., "type": ..., "has_moved": ...}`. -/
def piece_to_dict (piece : Piece) : JVal :=
  .jobj [("color", .jstr piece.color), ("type", .jstr piece.piece_type),
         ("has_moved", .jbool piece.has_moved)]

/-- The function `game_to_dict`.  The board rows are encoded first
(row-major, `None` cells as null); the surrounding dict literal then
evaluates `chess_board.game_mode.value` — `hasattr(chess_board,
"game_mode")` is always true because `__init__` sets the attribute, so
when the mode is `None` this raises `AttributeError` (`Except.error ()`)
instead of producing a document. -/
def game_to_dict (g : ChessBoard) : Except Unit JVal :=
  let board_data : JVal := .jarr ((List.finRange 8).map (fun row =>
    .jarr ((List.finRange 8).map (fun col =>
      match g.board row col with
      | none => JVal.jnull
      | some piece => piece_to_dict piece))))
  match g.game_mode with
  | none => .error ()
  | some m =>
    .ok (.jobj [("board", board_data),
                ("current_player", .jstr g.current_player),
                ("game_mode", .jnum m.value),
                ("move_history", .jarr (g.move_history.map JVal.jstr))])

/-- One iteration of the cell-loading loop of `dict_to_game`: evaluates
`data["board"][row][col]` and, for a non-null cell, reads `"type"` and
`"color"`, constructs the piece, reads `"has_moved"` and stores the piece
in the grid.  An error result carries the state as mutated so far, since
the Python loop mutates `chess_board` in place and an exception leaves
those mutations behind.

Modelling notes, each for a branch no claim below depends on:
the source compares `piece_data["type"]` against the six kind strings
and, when none matches, falls through with the local variable `piece`
still bound to the previous iteration's object (a `NameError` if there
was none); both outcomes of that fall-through are modelled as a failure
here (the object-reuse outcome aliases one object into two grid cells,
which a value-level state cannot represent).  Likewise the source stores
`piece_data["color"]` and `piece_data["has_moved"]` without validation;
values of the wrong shape for the typed state (a non-string color, a
non-boolean flag) are modelled as failures at the point of use. -/
def load_cell (data : JVal) (g : ChessBoard) (row col : Fin 8) :
    Except ChessBoard ChessBoard :=
  match (data.getKey "board").bind (fun b => (b.getIdx row).bind (fun r => r.getIdx col)) with
  | .error _ => .error g
  | .ok .jnull => .ok g
  | .ok piece_data =>
    match piece_data.getKey "type" with
    | .error _ => .error g
    | .ok ty =>
      match piece_data.getKey "color" with
      | .error _ => .error g
      | .ok (.jstr color) =>
        let mk? : Option Piece :=
          match ty with
          | .jstr tys =>
            if tys = PAWN then some (mkPiece color PAWN row col)
            else if tys = ROOK then some (mkPiece color ROOK row col)
            else if tys = KNIGHT then some (mkPiece color KNIGHT row col)
            else if tys = BISHOP then some (mkPiece color BISHOP row col)
            else if tys = QUEEN then some (mkPiece color QUEEN row col)
            else if tys = KING then some (mkPiece color KING row col)
            else none
          | _ => none
        match mk? with
        | none => .error g
        | some piece =>
          match piece_data.getKey "has_moved" with
          | .error _ => .error g
          | .ok (.jbool hm) =>
            let loaded : Piece := { piece with has_moved := hm }
            .ok { g with board := setCell g.board row col (some loaded) }
          | .ok _ => .error g
      | .ok _ => .error g

/-- The function `dict_to_game`, which loads a document into a live
`ChessBoard` by mutating it in place.  It first replaces the board with
an empty grid, then loads the 64 cells in row-major order, then the
current player, the mode (`GameMode(value)` raises `ValueError` except
on 0, 1, or a Python bool, which is an int with `True == 1`), and the
move history (`data.get("move_history", [])`).  An error result carries
the partially mutated state that an exception would leave behind; a
non-string `current_player` and a history that is not a list of strings
are stored raw by the source and modelled as failures here (no claim
depends on such documents). -/
def dict_to_game (data : JVal) (g : ChessBoard) : Except ChessBoard ChessBoard :=
  let g0 : ChessBoard := { g with board := fun _ _ => none }
  match ((List.finRange 8).flatMap (fun r => (List.finRange 8).map (fun c => (r, c)))).foldlM
      (fun s (rc : Fin 8 × Fin 8) => load_cell data s rc.1 rc.2) g0 with
  | .error gp => .error gp
  | .ok g1 =>
    match data.getKey "current_player" with
    | .error _ => .error g1
    | .ok (.jstr cp) =>
      let g2 : ChessBoard := { g1 with current_player := cp }
      match data.getKey "game_mode" with
      | .error _ => .error g2
      | .ok mv =>
        let mode? : Except Unit (Option GameMode) :=
          match mv with
          | .jnull => .ok none
          | .jnum 0 => .ok (some .single_player)
          | .jnum 1 => .ok (some .multiplayer)
          | .jbool b => .ok (some (if b then .multiplayer else .single_player))
          | _ => .error ()
        match mode? with
        | .error _ => .error g2
        | .ok m? =>
          let g3 : ChessBoard :=
            match m? with
            | none => g2
            | some m => { g2 with game_mode := some m }
          match data.getD "move_history" (.jarr []) with
          | .jarr items =>
            match items.mapM (fun v => match v with | .jstr s => some s | _ => none) with
            | some hist => .ok { g3 with move_history := hist }
            | none => .error g3
          | _ => .error g3
    | .ok _ => .error g1

/-- The function `save_game` with the file write elided: it fails exactly
when `game_to_dict` raises. -/
def save_game (g : ChessBoard) : Bool :=
  match game_to_dict g with
  | .ok _ => true
  | .error _ => false

/-- The function `load_game` applied to an already parsed document (the
file read and `json.load`, which fail before any mutation, are elided):
`dict_to_game` runs inside `try`/`except`, so on an exception the
function reports failure while the live state keeps whatever mutations
`dict_to_game` had already performed. -/
def load_game (data : JVal) (g : ChessBoard) : Bool × ChessBoard :=
  match dict_to_game data g with
  | .ok g2 => (true, g2)
  | .error gp => (false, gp)

/-- A small example board used by witnesses: a white rook at (4,4), a
black pawn at (4,6) two squares to its right, and a white pawn at
(4,2) two squares to its left. -/
def c8_board : Board := fun i j =>
  if i = 4 ∧ j = 4 then some (mkPiece WHITE_PIECE ROOK 4 4)
  else if i = 4 ∧ j = 6 then some (mkPiece BLACK_PIECE PAWN 4 6)
  else if i = 4 ∧ j = 2 then some (mkPiece WHITE_PIECE PAWN 4 2)
  else none

/-- A played state with a set mode, used to exercise the persistence
codec: the opening move e2-e4 applied to a fresh single-player game. -/
def after_e2e4 : ChessBoard :=
  { (move_selected_piece (select_piece ChessBoard.init 6 4).1 4 4).1 with
    game_mode := some GameMode.single_player }

/-- Position synchrony: every piece stored in the grid records exactly
the coordinates of the cell holding it (the Board invariant of the
specification's data model). -/
def posSyncB (b : Board) : Prop :=
  ∀ (r c : Fin 8) (p : Piece), b r c = some p →
    p.row = (r.val : Int) ∧ p.col = (c.val : Int)

/-- One engine operation, as invoked by the main loop: a selection
attempt, a move attempt, or an automated move (whose `choice` argument
is constrained exactly as `random.choice` constrains it: it is a member
of the enumerated move list). -/
inductive Step : ChessBoard → ChessBoard → Prop
  | select (g : ChessBoard) (row col : Int) : Step g (select_piece g row col).1
  | move (g : ChessBoard) (row col : Int) : Step g (move_selected_piece g row col).1
  | ai (g : ChessBoard) (choice : Piece × (Int × Int))
      (h : choice ∈ get_all_valid_moves g BLACK_PIECE) :
      Step g (make_ai_move g choice).1

/-- States reachable from a freshly set-up game (with any mode, since the
main loop assigns the mode right after construction) by any sequence of
engine operations. -/
inductive Reachable : ChessBoard → Prop
  | init (m : Option GameMode) : Reachable { ChessBoard.init with game_mode := m }
  | step {g g' : ChessBoard} : Reachable g → Step g g' → Reachable g'

/-- The inductive invariant: the grid is position-synchronized, and a
state with no selection has an empty legal-move cache (selection and
cache are always written together). -/
def Inv (g : ChessBoard) : Prop :=
  posSyncB g.board ∧ (g.selected_piece = none → g.legal_moves = [])

/-! Support lemmas shared by the claim theorems. -/

/-- The standard setup is position-synchronized. -/
theorem posSyncB_setup : posSyncB setup_pieces := by
  intro r c p h
  unfold setup_pieces at h
  dsimp only at h
  split_ifs at h <;> (injection h with h; subst h; exact ⟨rfl, rfl⟩)

/-- The shared board update of `move_selected_piece` and `make_ai_move`
preserves position synchrony: the source cell is emptied and the
destination cell receives a piece stamped with the destination
coordinates. -/
theorem posSyncB_update (b : Board) (hb : posSyncB b)
    (old_row old_col row col : Int) (piece : Piece) :
    posSyncB (setCell (setCell b old_row old_col none) row col
      (some (piece.move_to row col))) := by
  intro i j q hq
  simp only [setCell, Piece.move_to] at hq
  by_cases h1 : ((i : Fin 8) : Int) = row ∧ ((j : Fin 8) : Int) = col
  · rw [if_pos h1] at hq
    injection hq with hq
    subst hq
    exact ⟨h1.1.symm, h1.2.symm⟩
  · rw [if_neg h1] at hq
    by_cases h2 : ((i : Fin 8) : Int) = old_row ∧ ((j : Fin 8) : Int) = old_col
    · rw [if_pos h2] at hq
      cases hq
    · rw [if_neg h2] at hq
      exact hb i j q hq

/-- Selection preserves the invariant. -/
theorem inv_select (g : ChessBoard) (row col : Int) (h : Inv g) :
    Inv (select_piece g row col).1 := by
  unfold select_piece
  rcases hx : get_piece_at g.board row col with e | v
  · exact h
  · rcases v with _ | piece
    · exact h
    · by_cases hc : piece.color = g.current_player
      · simp only [hc, if_true]
        exact ⟨h.1, fun hx => by cases hx⟩
      · simp only [hc, if_false]
        exact h

/-- A move attempt preserves the invariant. -/
theorem inv_move (g : ChessBoard) (row col : Int) (h : Inv g) :
    Inv (move_selected_piece g row col).1 := by
  unfold move_selected_piece
  rcases hs : g.selected_piece with _ | piece
  · exact h
  · by_cases hm : (row, col) ∈ g.legal_moves
    · simp only [hm, not_true_eq_false, if_false]
      exact ⟨posSyncB_update g.board h.1 piece.row piece.col row col piece,
             fun _ => rfl⟩
    · simp only [hm, not_false_eq_true, if_true]
      exact h

/-- An automated move preserves the invariant. -/
theorem inv_ai (g : ChessBoard) (choice : Piece × (Int × Int)) (h : Inv g) :
    Inv (make_ai_move g choice).1 := by
  unfold make_ai_move
  by_cases ht : g.current_player ≠ BLACK_PIECE
  · rw [if_pos ht]
    exact h
  · rw [if_neg ht]
    by_cases he : get_all_valid_moves g BLACK_PIECE = []
    · rw [if_pos he]
      exact h
    · rw [if_neg he]
      exact ⟨posSyncB_update g.board h.1 choice.1.row choice.1.col
               choice.2.1 choice.2.2 choice.1, h.2⟩

/-- Every engine operation preserves the invariant. -/
theorem inv_step {g g' : ChessBoard} (h : Inv g) (hs : Step g g') : Inv g' := by
  cases hs with
  | select row col => exact inv_select g row col h
  | move row col => exact inv_move g row col h
  | ai choice _ => exact inv_ai g choice h

/-- Every reachable state satisfies the invariant. -/
theorem reachable_inv {g : ChessBoard} (h : Reachable g) : Inv g := by
  induction h with
  | init m => exact ⟨posSyncB_setup, fun _ => rfl⟩
  | step _ hs ih => exact inv_step ih hs

/-- For in-range coordinates the raw board access returns the cell. -/
theorem board_index_in_range (b : Board) (row col : Int)
    (hr : 0 ≤ row) (hr8 : row < 8) (hc : 0 ≤ col) (hc8 : col < 8) :
    board_index b row col =
      .ok (b ⟨row.toNat, by omega⟩ ⟨col.toNat, by omega⟩) := by
  unfold board_index index8
  rw [dif_pos ⟨hr, hr8⟩, dif_pos ⟨hc, hc8⟩]

/-- The method `get_piece_at` never reaches the raising branch of the
raw access. -/
theorem get_piece_at_ok (b : Board) (row col : Int) :
    get_piece_at b row col ≠ Except.error () := by
  unfold get_piece_at
  split
  · next h =>
    rw [board_index_in_range b row col h.1 h.2.1 h.2.2.1 h.2.2.2]
    exact fun hx => by cases hx
  · exact fun hx => by cases hx

/-- In range, `get_piece_at` agrees with the grid cell. -/
theorem get_piece_at_in_range (b : Board) (row col : Int)
    (hr : 0 ≤ row) (hr8 : row < 8) (hc : 0 ≤ col) (hc8 : col < 8) :
    get_piece_at b row col =
      .ok (b ⟨row.toNat, by omega⟩ ⟨col.toNat, by omega⟩) := by
  unfold get_piece_at
  rw [if_pos ⟨hr, hr8, hc, hc8⟩]
  exact board_index_in_range b row col hr hr8 hc hc8

/-! Claim theorems. -/

/-- C4: for every square with row and column in `[0, 8)`, converting to
the algebraic string and back yields the same square. -/
theorem c4_algebraic_roundtrip (row col : Int)
    (hr : 0 ≤ row) (hr8 : row < 8) (hc : 0 ≤ col) (hc8 : col < 8) :
    get_board_coordinates (get_algebraic row col) = .ok (row, col) := by
  interval_cases row <;> interval_cases col <;> rfl

/-- Witness for C4 at the square e2 (row 6, col 4). -/
theorem c4_algebraic_roundtrip_witness :
    (0 : Int) ≤ 6 ∧
      get_board_coordinates (get_algebraic 6 4) = .ok (6, 4) :=
  ⟨by decide, c4_algebraic_roundtrip 6 4 (by decide) (by decide) (by decide) (by decide)⟩

/-- C10: `get_piece_at` never raises (in particular negative coordinates
never reach the wrapping list indexing), and every off-board query
returns `None`. -/
theorem c10_get_piece_at_safe (b : Board) (row col : Int) :
    get_piece_at b row col ≠ Except.error () ∧
      ((row < 0 ∨ 8 ≤ row ∨ col < 0 ∨ 8 ≤ col) →
        get_piece_at b row col = .ok none) := by
  refine ⟨get_piece_at_ok b row col, fun h => ?_⟩
  unfold get_piece_at
  rw [if_neg (by omega)]

/-- Witness for C10: the query at row `-1` (which raw Python indexing
would wrap to row 7, an occupied rank) returns `None`. -/
theorem c10_get_piece_at_safe_witness :
    get_piece_at setup_pieces (-1) 0 = .ok none :=
  (c10_get_piece_at_safe setup_pieces (-1) 0).2 (by omega)

/-- C3: `move_selected_piece` returns `false` and leaves the whole state
unchanged whenever no piece is selected or the destination is not in the
cached legal moves. -/
theorem c3_reject_no_mutation (g : ChessBoard) (row col : Int)
    (h : g.selected_piece = none ∨ (row, col) ∉ g.legal_moves) :
    move_selected_piece g row col = (g, false) := by
  unfold move_selected_piece
  rcases hs : g.selected_piece with _ | piece
  · rfl
  · rcases h with h | h
    · rw [hs] at h; cases h
    · simp only [h, not_false_eq_true, if_true]

/-- Witness for C3: a move request on the fresh game (nothing selected)
is rejected without mutation. -/
theorem c3_reject_no_mutation_witness :
    move_selected_piece ChessBoard.init 4 4 = (ChessBoard.init, false) :=
  c3_reject_no_mutation ChessBoard.init 4 4 (Or.inl rfl)

/-- C9: the initial position yields exactly 20 White moves, 16 of them
pawn moves and 4 knight moves. -/
theorem c9_initial_white_moves :
    (get_all_valid_moves ChessBoard.init WHITE_PIECE).length = 20 ∧
      ((get_all_valid_moves ChessBoard.init WHITE_PIECE).filter
        (fun pm => pm.1.piece_type == PAWN)).length = 16 ∧
      ((get_all_valid_moves ChessBoard.init WHITE_PIECE).filter
        (fun pm => pm.1.piece_type == KNIGHT)).length = 4 := by
  refine ⟨by decide, by decide, by decide⟩

/-- C1 (code bug): loading the malformed document `{}` into the freshly
set-up game reports failure, but the live board has already been wiped
to 64 empty cells — `dict_to_game` clears the board before validating
the document, so failure is not mutation-free as the specification
requires. -/
theorem c1_load_failure_mutates :
    load_game (JVal.jobj []) ChessBoard.init =
        (false, { ChessBoard.init with board := fun _ _ => none }) ∧
      (load_game (JVal.jobj []) ChessBoard.init).2 ≠ ChessBoard.init := by
  exact ⟨by decide, by decide⟩

/-- C5 (code bug): serializing a state whose mode is unset raises
(`game_to_dict` evaluates `game_mode.value` on `None`), so `save_game`
reports failure and no document is produced — the round trip cannot even
start for such states, although the specification says the mode is
encoded as null when unset. -/
theorem c5_serialize_unset_mode_fails :
    game_to_dict ChessBoard.init = Except.error () ∧
      save_game ChessBoard.init = false :=
  ⟨rfl, rfl⟩

/-- C2: in every reachable state each cell holds at most one piece with
its stored position equal to the cell's grid index, so a piece value
determines the unique cell holding it. -/
theorem c2_position_sync (g : ChessBoard) (h : Reachable g) :
    (∀ (r c : Fin 8) (p : Piece), g.board r c = some p →
        p.row = (r.val : Int) ∧ p.col = (c.val : Int)) ∧
      (∀ (r c r' c' : Fin 8) (p : Piece), g.board r c = some p →
        g.board r' c' = some p → r = r' ∧ c = c') := by
  have hp := (reachable_inv h).1
  refine ⟨hp, fun r c r' c' p h1 h2 => ?_⟩
  have e1 := hp r c p h1
  have e2 := hp r' c' p h2
  constructor
  · have : (r.val : Int) = (r'.val : Int) := by rw [← e1.1, ← e2.1]
    exact Fin.ext (by exact_mod_cast this)
  · have : (c.val : Int) = (c'.val : Int) := by rw [← e1.2, ← e2.2]
    exact Fin.ext (by exact_mod_cast this)

/-- Witness for C2 at the fresh game: the black pawn stored at cell
(1, 0) records exactly those coordinates. -/
theorem c2_position_sync_witness :
    (mkPiece BLACK_PIECE PAWN 1 0).row = (((1 : Fin 8)).val : Int) ∧
      (mkPiece BLACK_PIECE PAWN 1 0).col = (((0 : Fin 8)).val : Int) :=
  (c2_position_sync _ (Reachable.init none)).1 1 0 (mkPiece BLACK_PIECE PAWN 1 0)
    (by decide)

/-- At `Fin`-valued coordinates, `get_piece_at` is exactly the grid
cell. -/
theorem get_piece_at_fin (b : Board) (r c : Fin 8) :
    get_piece_at b (r.val : Int) (c.val : Int) = .ok (b r c) := by
  rw [get_piece_at_in_range b _ _ (Int.natCast_nonneg _) (by exact_mod_cast r.isLt)
    (Int.natCast_nonneg _) (by exact_mod_cast c.isLt)]
  simp only [Int.toNat_natCast, Fin.eta]

/-- Unpacking membership in the move enumeration: the piece sits in some
grid cell, has the requested color, and the destination is among its
legal moves. -/
theorem mem_get_all_valid_moves {g : ChessBoard} {color : String}
    {choice : Piece × (Int × Int)}
    (h : choice ∈ get_all_valid_moves g color) :
    ∃ r c : Fin 8, g.board r c = some choice.1 ∧ choice.1.color = color ∧
      choice.2 ∈ get_legal_moves g.board choice.1 := by
  unfold get_all_valid_moves at h
  simp only [List.mem_flatMap, List.mem_finRange, true_and] at h
  obtain ⟨r, c, hin⟩ := h
  refine ⟨r, c, ?_⟩
  rcases hb : g.board r c with _ | piece <;> rw [hb] at hin <;> dsimp only at hin
  · simp at hin
  · by_cases hcol : piece.color = color
    · rw [if_pos hcol] at hin
      simp only [List.mem_map] at hin
      obtain ⟨mv, hmv, hch⟩ := hin
      subst hch
      exact ⟨rfl, hcol, hmv⟩
    · rw [if_neg hcol] at hin
      simp at hin

/-- C6: from any reachable deselected state on the automated color's
turn, the automated move with a given policy pick both succeeds and
produces exactly the state (and success flag) of the interactive path
that selects the picked piece and applies the picked destination. -/
theorem c6_ai_matches_interactive_path (g : ChessBoard) (h : Reachable g)
    (hsel : g.selected_piece = none) (hturn : g.current_player = BLACK_PIECE)
    (choice : Piece × (Int × Int))
    (hc : choice ∈ get_all_valid_moves g BLACK_PIECE) :
    (select_piece g choice.1.row choice.1.col).2 = true ∧
      (move_selected_piece (select_piece g choice.1.row choice.1.col).1
        choice.2.1 choice.2.2).2 = true ∧
      make_ai_move g choice =
        ((move_selected_piece (select_piece g choice.1.row choice.1.col).1
          choice.2.1 choice.2.2).1, true) := by
  obtain ⟨r, c, hcell, hcol, hmv⟩ := mem_get_all_valid_moves hc
  have hinv := reachable_inv h
  have hpos := hinv.1 r c choice.1 hcell
  have hleg : g.legal_moves = [] := hinv.2 hsel
  have hsel_eq : select_piece g choice.1.row choice.1.col =
      ({ g with selected_piece := some choice.1,
                legal_moves := get_legal_moves g.board choice.1 }, true) := by
    unfold select_piece
    rw [hpos.1, hpos.2, get_piece_at_fin g.board r c, hcell]
    dsimp only
    rw [if_pos (hcol.trans hturn.symm)]
  have hmove_eq : move_selected_piece (select_piece g choice.1.row choice.1.col).1
      choice.2.1 choice.2.2 =
      ({ board := setCell (setCell g.board choice.1.row choice.1.col none)
            choice.2.1 choice.2.2
            (some (choice.1.move_to choice.2.1 choice.2.2)),
         selected_piece := none,
         current_player := WHITE_PIECE,
         legal_moves := [],
         move_history := g.move_history ++
           [get_move_str choice.1.row choice.1.col choice.2.1 choice.2.2 choice.1
             (cellAt g.board choice.2.1 choice.2.2).isSome],
         game_mode := g.game_mode }, true) := by
    rw [hsel_eq]
    unfold move_selected_piece
    dsimp only
    rw [if_neg (by simp only [not_not, Prod.mk.eta]; exact hmv)]
    have hcur : ¬ g.current_player = WHITE_PIECE := by
      rw [hturn]; decide
    rw [if_neg hcur]
  refine ⟨by rw [hsel_eq], by rw [hmove_eq], ?_⟩
  rw [hmove_eq]
  unfold make_ai_move
  rw [if_neg (by rw [hturn]; exact fun hx => hx rfl),
      if_neg (List.ne_nil_of_mem hc)]
  dsimp only
  rw [hsel, hleg]

/-- Witness for C6: after the opening move e2-e4 the automated reply
that pushes the a7 pawn to a6 equals the interactive path selecting a7
and moving it to a6. -/
theorem c6_ai_matches_interactive_path_witness :
    (select_piece ((move_selected_piece (select_piece ChessBoard.init 6 4).1 4 4).1)
        (mkPiece BLACK_PIECE PAWN 1 0).row (mkPiece BLACK_PIECE PAWN 1 0).col).2 = true ∧
      (move_selected_piece
        (select_piece ((move_selected_piece (select_piece ChessBoard.init 6 4).1 4 4).1)
          (mkPiece BLACK_PIECE PAWN 1 0).row (mkPiece BLACK_PIECE PAWN 1 0).col).1
        (2 : Int) (0 : Int)).2 = true ∧
      make_ai_move ((move_selected_piece (select_piece ChessBoard.init 6 4).1 4 4).1)
          (mkPiece BLACK_PIECE PAWN 1 0, ((2 : Int), (0 : Int))) =
        ((move_selected_piece
          (select_piece ((move_selected_piece (select_piece ChessBoard.init 6 4).1 4 4).1)
            (mkPiece BLACK_PIECE PAWN 1 0).row (mkPiece BLACK_PIECE PAWN 1 0).col).1
          (2 : Int) (0 : Int)).1, true) :=
  c6_ai_matches_interactive_path
    ((move_selected_piece (select_piece ChessBoard.init 6 4).1 4 4).1)
    (Reachable.step (Reachable.step (Reachable.init none)
      (Step.select _ 6 4)) (Step.move _ 4 4))
    (by decide) (by decide)
    (mkPiece BLACK_PIECE PAWN 1 0, ((2 : Int), (0 : Int)))
    (by decide)

/-- Membership in the pawn's diagonal-capture block: exactly the two
forward-diagonal squares that are on the board and hold an opposing
piece. -/
theorem mem_pawn_captures (b : Board) (p : Piece) (d r c : Int) :
    (r, c) ∈ pawn_captures b p d ↔
      ((c = p.col - 1 ∨ c = p.col + 1) ∧ r = p.row + d ∧
        is_valid_position r c ∧
        ∃ t, cellAt b r c = some t ∧ t.color ≠ p.color) := by
  unfold pawn_captures
  simp only [List.mem_filterMap, List.mem_cons, List.mem_singleton,
    List.not_mem_nil, or_false]
  constructor
  · rintro ⟨a, ha, heq⟩
    by_cases hv : is_valid_position (p.row + d) (p.col + a)
    · rw [if_pos hv] at heq
      rcases hcell : cellAt b (p.row + d) (p.col + a) with _ | t <;>
        rw [hcell] at heq <;> dsimp only at heq
      · cases heq
      · by_cases hct : t.color ≠ p.color
        · rw [if_pos hct] at heq
          simp only [Option.some.injEq, Prod.mk.injEq] at heq
          obtain ⟨h1, h2⟩ := heq
          subst h1
          subst h2
          refine ⟨?_, rfl, hv, t, hcell, hct⟩
          rcases ha with rfl | rfl
          exacts [Or.inl (by omega), Or.inr (by omega)]
        · rw [if_neg hct] at heq
          cases heq
    · rw [if_neg hv] at heq
      cases heq
  · rintro ⟨hcOr, hr, hv, t, hcell, hct⟩
    subst hr
    rcases hcOr with hc1 | hc1 <;> subst hc1
    · refine ⟨-1, Or.inl rfl, ?_⟩
      have e : p.col + (-1 : Int) = p.col - 1 := by ring
      rw [e, if_pos hv, hcell]
      dsimp only
      rw [if_pos hct]
    · refine ⟨1, Or.inr rfl, ?_⟩
      rw [if_pos hv, hcell]
      dsimp only
      rw [if_pos hct]

/-- C7: for a pawn with a proper color standing on the board, the legal
destinations among board squares are exactly: the one-square forward
square iff it is empty; the two-square forward square iff the pawn has
not moved and both the intermediate and the destination squares are
empty; and each forward-diagonal square iff it holds a piece of the
opposing color.  Forward means toward the opponent's side: row step `-1`
for White (whose opponent starts on rows 0-1), `+1` for Black. -/
theorem c7_pawn_moves_exact (b : Board) (p : Piece)
    (hty : p.piece_type = PAWN)
    (hcolor : p.color = WHITE_PIECE ∨ p.color = BLACK_PIECE)
    (hp : is_valid_position p.row p.col)
    (r c : Int) (hrc : is_valid_position r c) :
    ((r, c) ∈ get_legal_moves b p ↔
      (let d : Int := if p.color = WHITE_PIECE then -1 else 1
       (r = p.row + d ∧ c = p.col ∧ cellAt b r c = none) ∨
       (r = p.row + 2 * d ∧ c = p.col ∧ p.has_moved = false ∧
         cellAt b (p.row + d) p.col = none ∧ cellAt b r c = none) ∨
       ((c = p.col - 1 ∨ c = p.col + 1) ∧ r = p.row + d ∧
         ∃ t, cellAt b r c = some t ∧ t.color ≠ p.color))) := by
  unfold get_legal_moves
  rw [if_pos hty]
  unfold pawn_moves
  dsimp only
  set d : Int := if p.color = WHITE_PIECE then -1 else 1 with hdef
  have hd : d = -1 ∨ d = 1 := by
    rw [hdef]
    rcases hcolor with hw | hb2
    · rw [if_pos hw]; exact Or.inl rfl
    · rw [if_neg (by rw [hb2]; decide)]; exact Or.inr rfl
  rw [List.mem_append, mem_pawn_captures]
  by_cases hA : is_valid_position (p.row + d) p.col ∧
      cellAt b (p.row + d) p.col = none
  · rw [if_pos hA]
    by_cases hB : ¬ p.has_moved ∧ is_valid_position (p.row + 2 * d) p.col ∧
        cellAt b (p.row + 2 * d) p.col = none
    · rw [if_pos hB]
      simp only [List.mem_cons, List.mem_singleton, List.not_mem_nil, or_false,
        Prod.mk.injEq]
      constructor
      · rintro ((⟨hr, hc⟩ | ⟨hr, hc⟩) | ⟨hcOr, hr, _, hex⟩)
        · exact Or.inl ⟨hr, hc, by rw [hr, hc]; exact hA.2⟩
        · refine Or.inr (Or.inl ⟨hr, hc, by simpa using hB.1, hA.2, ?_⟩)
          rw [hr, hc]; exact hB.2.2
        · exact Or.inr (Or.inr ⟨hcOr, hr, hex⟩)
      · rintro (⟨hr, hc, _⟩ | ⟨hr, hc, _⟩ | ⟨hcOr, hr, hex⟩)
        · exact Or.inl (Or.inl ⟨hr, hc⟩)
        · exact Or.inl (Or.inr ⟨hr, hc⟩)
        · exact Or.inr ⟨hcOr, hr, hrc, hex⟩
    · rw [if_neg hB]
      simp only [List.mem_singleton, List.not_mem_nil, or_false, Prod.mk.injEq]
      constructor
      · rintro (⟨hr, hc⟩ | ⟨hcOr, hr, _, hex⟩)
        · exact Or.inl ⟨hr, hc, by rw [hr, hc]; exact hA.2⟩
        · exact Or.inr (Or.inr ⟨hcOr, hr, hex⟩)
      · rintro (⟨hr, hc, _⟩ | ⟨hr, hc, hbm, _, hempty2⟩ | ⟨hcOr, hr, hex⟩)
        · exact Or.inl ⟨hr, hc⟩
        · exact absurd ⟨by simp [hbm], by rw [← hr, ← hc]; exact hrc,
            by rw [← hr, ← hc]; exact hempty2⟩ hB
        · exact Or.inr ⟨hcOr, hr, hrc, hex⟩
  · rw [if_neg hA]
    simp only [List.not_mem_nil, false_or]
    constructor
    · rintro ⟨hcOr, hr, _, hex⟩
      exact Or.inr (Or.inr ⟨hcOr, hr, hex⟩)
    · rintro (⟨hr, hc, hempty⟩ | ⟨hr, hc, _, hmid, _⟩ | ⟨hcOr, hr, hex⟩)
      · exact absurd ⟨by rw [← hr, ← hc]; exact hrc,
          by rw [← hr, ← hc]; exact hempty⟩ hA
      · refine absurd ⟨?_, hmid⟩ hA
        unfold is_valid_position at hp hrc ⊢
        rcases hd with h | h <;> omega
      · exact ⟨hcOr, hr, hrc, hex⟩

/-- Witness for C7: the fresh white e2 pawn may advance one square to
the empty e3. -/
theorem c7_pawn_moves_exact_witness :
    ((5 : Int), (4 : Int)) ∈ get_legal_moves setup_pieces (mkPiece WHITE_PIECE PAWN 6 4) :=
  (c7_pawn_moves_exact setup_pieces (mkPiece WHITE_PIECE PAWN 6 4) rfl
      (Or.inl rfl) (by decide) 5 4 (by decide)).mpr
    (Or.inl ⟨by decide, by decide, by decide⟩)

/-- Unpacking membership in one ray: the destination is the `k`-th step
along the direction for some `k` at least the starting index, every
strictly earlier square from the starting index on is empty, and the
destination holds no piece of the casting color. -/
theorem mem_ray_moves {b : Board} {color : String} {row col dr dc x y : Int} :
    ∀ (fuel : Nat) (i : Int),
      (x, y) ∈ ray_moves b color row col dr dc fuel i →
      ∃ k : Int, i ≤ k ∧ x = row + k * dr ∧ y = col + k * dc ∧
        (∀ j : Int, i ≤ j → j < k →
          cellAt b (row + j * dr) (col + j * dc) = none) ∧
        (∀ t, cellAt b x y = some t → t.color ≠ color) := by
  intro fuel
  induction fuel with
  | zero =>
    intro i h
    unfold ray_moves at h
    simp at h
  | succ n ih =>
    intro i h
    unfold ray_moves at h
    dsimp only at h
    by_cases hv : is_valid_position (row + i * dr) (col + i * dc)
    · rw [if_pos hv] at h
      rcases hcell : cellAt b (row + i * dr) (col + i * dc) with _ | t <;>
        rw [hcell] at h <;> dsimp only at h
      · rcases List.mem_cons.mp h with heq | hrest
        · rw [Prod.mk.injEq] at heq
          obtain ⟨hx, hy⟩ := heq
          refine ⟨i, le_refl i, hx, hy, fun j hj1 hj2 => by omega,
                  fun t ht => ?_⟩
          rw [hx, hy, hcell] at ht
          cases ht
        · obtain ⟨k, hk, hx, hy, hemp, hcol⟩ := ih (i + 1) hrest
          refine ⟨k, by omega, hx, hy, fun j hj1 hj2 => ?_, hcol⟩
          rcases eq_or_lt_of_le hj1 with rfl | hlt
          · exact hcell
          · exact hemp j (by omega) hj2
      · by_cases hct : t.color ≠ color
        · rw [if_pos hct] at h
          rw [List.mem_singleton, Prod.mk.injEq] at h
          obtain ⟨hx, hy⟩ := h
          refine ⟨i, le_refl i, hx, hy, fun j hj1 hj2 => by omega,
                  fun t2 ht2 => ?_⟩
          rw [hx, hy, hcell] at ht2
          injection ht2 with ht2
          rw [← ht2]
          exact hct
        · rw [if_neg hct] at h
          simp at h
    · rw [if_neg hv] at h
      simp at h

/-- Among the eight queen directions, the decomposition of a nonzero
offset as `k` steps (with `k` positive) along a direction is unique. -/
theorem queen_dir_unique {dr dc dr2 dc2 k k2 : Int}
    (h1 : (dr, dc) ∈ queen_directions) (h2 : (dr2, dc2) ∈ queen_directions)
    (hk : 1 ≤ k) (hk2 : 1 ≤ k2)
    (hr : k * dr = k2 * dr2) (hc : k * dc = k2 * dc2) :
    dr = dr2 ∧ dc = dc2 ∧ k = k2 := by
  simp only [queen_directions, rook_directions, bishop_directions,
    List.cons_append, List.nil_append] at h1 h2
  fin_cases h1 <;> fin_cases h2 <;> omega

/-- Offset movers (knight, king) never land on a same-color piece. -/
theorem offset_moves_color {b : Board} {p : Piece} {offsets : List (Int × Int)}
    {r c : Int} (h : (r, c) ∈ offset_moves b p offsets) :
    ∀ t, cellAt b r c = some t → t.color ≠ p.color := by
  unfold offset_moves at h
  simp only [List.mem_filterMap] at h
  obtain ⟨d, _, heq⟩ := h
  by_cases hv : is_valid_position (p.row + d.1) (p.col + d.2)
  · rw [if_pos hv] at heq
    rcases hcell : cellAt b (p.row + d.1) (p.col + d.2) with _ | t0 <;>
      rw [hcell] at heq <;> dsimp only at heq
    · simp only [Option.some.injEq, Prod.mk.injEq] at heq
      obtain ⟨h1, h2⟩ := heq
      intro t ht
      rw [← h1, ← h2, hcell] at ht
      cases ht
    · by_cases hct : t0.color ≠ p.color
      · rw [if_pos hct] at heq
        simp only [Option.some.injEq, Prod.mk.injEq] at heq
        obtain ⟨h1, h2⟩ := heq
        intro t ht
        rw [← h1, ← h2, hcell] at ht
        injection ht with ht
        rw [← ht]
        exact hct
      · rw [if_neg hct] at heq
        cases heq
  · rw [if_neg hv] at heq
    cases heq

/-- Shared safety property of the three ray-casting generators: no
same-color destination, and every destination's decomposition along a
queen direction has only empty squares strictly between the piece and
the destination. -/
theorem flatMap_ray_safe {b : Board} {p : Piece} {r c : Int}
    (dirs : List (Int × Int)) (hsub : ∀ d ∈ dirs, d ∈ queen_directions)
    (h : (r, c) ∈ dirs.flatMap
      (fun d => ray_moves b p.color p.row p.col d.1 d.2 7 1)) :
    (∀ t, cellAt b r c = some t → t.color ≠ p.color) ∧
      (∀ dr dc k : Int, (dr, dc) ∈ queen_directions → 1 ≤ k →
        r = p.row + k * dr → c = p.col + k * dc →
        ∀ j : Int, 1 ≤ j → j < k →
          cellAt b (p.row + j * dr) (p.col + j * dc) = none) := by
  simp only [List.mem_flatMap] at h
  obtain ⟨d0, hd0, hray⟩ := h
  obtain ⟨k0, hk0, hx, hy, hemp, hcol⟩ := mem_ray_moves 7 1 hray
  refine ⟨hcol, fun dr dc k hdir hk hr hc j hj1 hjk => ?_⟩
  have hq0 : (d0.1, d0.2) ∈ queen_directions := by
    simpa using hsub d0 hd0
  have h1 : k * dr = k0 * d0.1 := by
    have e := hr.symm.trans hx
    omega
  have h2 : k * dc = k0 * d0.2 := by
    have e := hc.symm.trans hy
    omega
  obtain ⟨e1, e2, e3⟩ := queen_dir_unique hdir hq0 hk hk0 h1 h2
  rw [e1, e2]
  exact hemp j hj1 (by omega)

/-- C8: a non-pawn piece never moves onto a square occupied by its own
color, and for the ray-casting pieces (rook, bishop, queen) every
destination, decomposed as `k` positive steps along its direction, has
all strictly intermediate squares empty — a ray never passes the first
occupied square. -/
theorem c8_nonpawn_moves_safe (b : Board) (p : Piece) (r c : Int)
    (hty : p.piece_type ∈ [ROOK, KNIGHT, BISHOP, QUEEN, KING])
    (hmem : (r, c) ∈ get_legal_moves b p) :
    (∀ t, cellAt b r c = some t → t.color ≠ p.color) ∧
      (p.piece_type ∈ [ROOK, BISHOP, QUEEN] →
        ∀ dr dc k : Int, (dr, dc) ∈ queen_directions → 1 ≤ k →
          r = p.row + k * dr → c = p.col + k * dc →
          ∀ j : Int, 1 ≤ j → j < k →
            cellAt b (p.row + j * dr) (p.col + j * dc) = none) := by
  unfold get_legal_moves at hmem
  simp only [List.mem_cons, List.not_mem_nil, or_false] at hty
  rcases hty with hty | hty | hty | hty | hty <;> rw [hty] at hmem <;>
    rw [if_neg (by decide)] at hmem
  · rw [if_pos rfl] at hmem
    unfold rook_moves at hmem
    have hs := flatMap_ray_safe rook_directions (by decide) hmem
    exact ⟨hs.1, fun _ => hs.2⟩
  · rw [if_neg (by decide), if_pos rfl] at hmem
    unfold knight_moves at hmem
    exact ⟨offset_moves_color hmem, fun hm => absurd (hty ▸ hm) (by decide)⟩
  · rw [if_neg (by decide), if_neg (by decide), if_pos rfl] at hmem
    unfold bishop_moves at hmem
    have hs := flatMap_ray_safe bishop_directions (by decide) hmem
    exact ⟨hs.1, fun _ => hs.2⟩
  · rw [if_neg (by decide), if_neg (by decide), if_neg (by decide),
        if_pos rfl] at hmem
    unfold queen_moves at hmem
    have hs := flatMap_ray_safe queen_directions (fun d hd => hd) hmem
    exact ⟨hs.1, fun _ => hs.2⟩
  · rw [if_neg (by decide), if_neg (by decide), if_neg (by decide),
        if_neg (by decide), if_pos rfl] at hmem
    unfold king_moves at hmem
    exact ⟨offset_moves_color hmem, fun hm => absurd (hty ▸ hm) (by decide)⟩

/-- Witness for C8: on `c8_board` the white rook's capture of the black
pawn at (4,6) targets an enemy piece, and the square (4,5) it passes
through is empty. -/
theorem c8_nonpawn_moves_safe_witness :
    (mkPiece BLACK_PIECE PAWN 4 6).color ≠ (mkPiece WHITE_PIECE ROOK 4 4).color ∧
      cellAt c8_board (4 + 1 * 0) (4 + 1 * 1) = none :=
  ⟨(c8_nonpawn_moves_safe c8_board (mkPiece WHITE_PIECE ROOK 4 4) 4 6
      (by decide) (by decide)).1 _ (by decide),
   (c8_nonpawn_moves_safe c8_board (mkPiece WHITE_PIECE ROOK 4 4) 4 6
      (by decide) (by decide)).2 (by decide) 0 1 2 (by decide) (by decide)
      (by decide) (by decide) 1 (by decide) (by decide)⟩

/-- Persistence sanity check away from the unset-mode defect: a played
state with a set mode serializes, and loading the resulting document into
a fresh game reports success and reproduces the state exactly. -/
theorem persistence_round_trip_example :
    (game_to_dict after_e2e4).isOk = true ∧
      (game_to_dict after_e2e4).toOption.map
        (fun d => (load_game d ChessBoard.init).1) = some true ∧
      (game_to_dict after_e2e4).toOption.map
        (fun d => decide ((load_game d ChessBoard.init).2.board = after_e2e4.board)) =
        some true ∧
      (game_to_dict after_e2e4).toOption.map
        (fun d => (load_game d ChessBoard.init).2.current_player) =
        some after_e2e4.current_player ∧
      (game_to_dict after_e2e4).toOption.map
        (fun d => (load_game d ChessBoard.init).2.move_history) =
        some after_e2e4.move_history ∧
      (game_to_dict after_e2e4).toOption.map
        (fun d => decide ((load_game d ChessBoard.init).2.game_mode = after_e2e4.game_mode)) =
        some true :=
  ⟨by decide, by decide, by decide, by decide, by decide, by decide⟩

end EvoChess